import Mathlib

/-!
Shallow embedding of the digraph-heatmap analyzer in `src/dust.py`.

The analyzer converts a byte sequence to its uppercase hex string, slides a
length-2 window over it, counts the resulting digraphs, fills a 16×16 grid
(with optional exclusion and minimum-count filtering), and optionally applies
`log1p` scaling before rendering.  Rendering itself is a side effect and is
not part of the returned value; the one numeric transform used by rendering
(the per-cell annotation that restores the original count) is embedded as
`annotationValue`.

Bytes are modelled as `Fin 256`, the hex string as `List Char`, the numpy
matrix as a function `ℕ → ℕ → ·` (meaningful on indices `< 16`), and the
`Counter` as its list of key/count items (`counterItems`).  Iteration order
of the counter's items never affects any result proved here, since keys are
distinct and map to distinct grid cells.  `sliding_window_view` raises a
`ValueError` when the window (2) exceeds the array length, so its model
returns `Except`.  Python floats are modelled by exact reals.
-/

/-- The fixed hex alphabet, `hex_digits = '0123456789ABCDEF'` in the source. -/
def hex_digits : String := "0123456789ABCDEF"

/-- The hex alphabet as a list of characters. -/
def hexDigitsList : List Char := hex_digits.toList

/-- Character at position `n` of the hex alphabet (the inverse of indexing). -/
def hexChar (n : ℕ) : Char := hexDigitsList.getD n '0'

/-- Position of a character in the hex alphabet, `hex_digits.index(c)` in the
source (16 when absent, which never happens on reachable inputs). -/
def hexIndex (c : Char) : ℕ := hexDigitsList.indexOf c

/-- Uppercase two-character hex encoding of one byte, high nibble first:
the expansion of the format `f'{b:02X}'` for `0 ≤ b < 256`. -/
def byteHex (b : Fin 256) : List Char := [hexChar (b.val / 16), hexChar (b.val % 16)]

/-- Hex string of a byte sequence:
`hex_string = ''.join(f'{b:02X}' for b in binary_data)`. -/
def hexString (binary_data : List (Fin 256)) : List Char :=
  binary_data.flatMap byteHex

/-- All overlapping length-2 windows of a character list, in order. -/
def digraphWindows : List Char → List (Char × Char)
  | a :: b :: rest => (a, b) :: digraphWindows (b :: rest)
  | _ => []

/-- Model of `np.lib.stride_tricks.sliding_window_view(hex_array, 2)`: numpy
raises `ValueError` when the window shape (2) is larger than the array. -/
def slidingWindowView (l : List Char) : Except String (List (Char × Char)) :=
  if l.length < 2 then Except.error "window shape cannot be larger than input array shape"
  else Except.ok (digraphWindows l)

/-- Items of `Counter(map(tuple, digraphs))`: each distinct digraph paired
with its number of occurrences. -/
def counterItems (ws : List (Char × Char)) : List ((Char × Char) × ℕ) :=
  ws.dedup.map fun p => (p, ws.count p)

/-- Pointwise update of a matrix cell, `matrix[i, j] = v`. -/
def matUpdate (m : ℕ → ℕ → ℕ) (i j v : ℕ) : ℕ → ℕ → ℕ :=
  fun a b => if a = i ∧ b = j then v else m a b

/-- The two `continue` conditions of the fill loop, with Python truthiness:
`if exclude_digraphs and (first, second) in exclude_digraphs` and
`if min_threshold and count < min_threshold` (`None` and `0` and `[]` are
falsy). -/
def skipDigraph (exclude_digraphs : Option (List (Char × Char)))
    (min_threshold : Option ℤ) (p : Char × Char) (count : ℕ) : Bool :=
  (match exclude_digraphs with
   | some l => !l.isEmpty && decide (p ∈ l)
   | none => false)
  ||
  (match min_threshold with
   | some t => decide (t ≠ 0) && decide ((count : ℤ) < t)
   | none => false)

/-- One iteration of the fill loop over `digraph_counts.items()`. -/
def fillStep (exclude_digraphs : Option (List (Char × Char)))
    (min_threshold : Option ℤ) (m : ℕ → ℕ → ℕ)
    (item : (Char × Char) × ℕ) : ℕ → ℕ → ℕ :=
  if skipDigraph exclude_digraphs min_threshold item.1 item.2 = true then m
  else matUpdate m (hexIndex item.1.1) (hexIndex item.1.2) item.2

/-- The fill loop: starting from `np.zeros((16, 16))`, set
`matrix[hex_digits.index(first), hex_digits.index(second)] = count` for every
non-skipped counter item. -/
def fillMatrix (items : List ((Char × Char) × ℕ))
    (exclude_digraphs : Option (List (Char × Char)))
    (min_threshold : Option ℤ) : ℕ → ℕ → ℕ :=
  items.foldl (fillStep exclude_digraphs min_threshold) (fun _ _ => 0)

/-- The grid as it stands after the fill loop and before log scaling. -/
def rawMatrix (binary_data : List (Fin 256))
    (exclude_digraphs : Option (List (Char × Char)))
    (min_threshold : Option ℤ) : ℕ → ℕ → ℕ :=
  fillMatrix (counterItems (digraphWindows (hexString binary_data)))
    exclude_digraphs min_threshold

/-- The grid's maximum value, `matrix.max()` over the 16×16 cells. -/
def matMax (m : ℕ → ℕ → ℕ) : ℕ :=
  Finset.sup (Finset.range 16) fun i => Finset.sup (Finset.range 16) fun j => m i j

/-- Log scaling:
`if log_scale and matrix.max() > 0: matrix = np.where(matrix > 0, np.log1p(matrix), 0)`,
with `np.log1p(v) = ln(1 + v)` read in exact real arithmetic. -/
noncomputable def applyLogScale (log_scale : Bool) (m : ℕ → ℕ → ℕ) : ℕ → ℕ → ℝ :=
  if log_scale = true ∧ 0 < matMax m then
    fun i j => if 0 < m i j then Real.log (1 + (m i j : ℝ)) else 0
  else
    fun i j => (m i j : ℝ)

/-- The per-cell text annotation computed from a (possibly scaled) cell value:
`int(np.expm1(v)) if log_scale else int(v)`, with `np.expm1(v) = exp(v) - 1`
and Python `int()` truncating toward zero, which on the non-negative values
arising here is the floor. -/
noncomputable def annotationValue (log_scale : Bool) (v : ℝ) : ℤ :=
  ⌊if log_scale = true then Real.exp v - 1 else v⌋

/-- The analyzer `analyze_digraphs(binary_data, log_scale, exclude_digraphs,
vmax, min_threshold)`.  It returns the (possibly log-scaled) grid and the full
counter; `vmax` is only passed to `plt.imshow` for rendering and therefore
does not occur in the computation of the returned value.  The `Except` layer
models the `ValueError` that `sliding_window_view` raises on a too-short
array. -/
noncomputable def analyze_digraphs (binary_data : List (Fin 256))
    (log_scale : Bool := true)
    (exclude_digraphs : Option (List (Char × Char)) := none)
    (vmax : Option ℚ := none)
    (min_threshold : Option ℤ := none) :
    Except String ((ℕ → ℕ → ℝ) × List ((Char × Char) × ℕ)) :=
  match slidingWindowView (hexString binary_data) with
  | Except.error e => Except.error e
  | Except.ok digraphs =>
      Except.ok
        (applyLogScale log_scale
          (fillMatrix (counterItems digraphs) exclude_digraphs min_threshold),
         counterItems digraphs)

/-! ### Facts about the hex alphabet -/

lemma hexDigitsList_eq :
    hexDigitsList = ['0','1','2','3','4','5','6','7','8','9','A','B','C','D','E','F'] := rfl

lemma hexChar_mem : ∀ n < 16, hexChar n ∈ hexDigitsList := by decide

lemma hexIndex_hexChar : ∀ n < 16, hexIndex (hexChar n) = n := by decide

lemma hexChar_hexIndex : ∀ c ∈ hexDigitsList, hexChar (hexIndex c) = c := by
  intro c hc
  rw [hexDigitsList_eq] at hc
  fin_cases hc <;> rfl

lemma hexIndex_lt : ∀ c ∈ hexDigitsList, hexIndex c < 16 := by
  intro c hc
  rw [hexDigitsList_eq] at hc
  fin_cases hc <;> decide

lemma hexIndex_inj {c c' : Char} (hc : c ∈ hexDigitsList) (hc' : c' ∈ hexDigitsList)
    (h : hexIndex c = hexIndex c') : c = c' := by
  rw [← hexChar_hexIndex c hc, ← hexChar_hexIndex c' hc', h]

/-! ### Facts about the hex string and its windows -/

lemma hexString_length (data : List (Fin 256)) :
    (hexString data).length = 2 * data.length := by
  induction data with
  | nil => rfl
  | cons b rest ih =>
    show (byteHex b ++ hexString rest).length = 2 * (rest.length + 1)
    rw [List.length_append, ih]
    simp [byteHex]
    omega

lemma hexString_mem (data : List (Fin 256)) : ∀ c ∈ hexString data, c ∈ hexDigitsList := by
  intro c hc
  rcases List.mem_flatMap.1 hc with ⟨b, _, hcb⟩
  have hblt := b.isLt
  rcases List.mem_cons.1 hcb with rfl | hcb'
  · exact hexChar_mem _ (by omega)
  · rcases List.mem_cons.1 hcb' with rfl | habs
    · exact hexChar_mem _ (by omega)
    · cases habs

lemma digraphWindows_mem (l : List Char) :
    ∀ w ∈ digraphWindows l, w.1 ∈ l ∧ w.2 ∈ l := by
  induction l with
  | nil => intro w hw; simp [digraphWindows] at hw
  | cons a rest ih =>
    intro w hw
    cases rest with
    | nil => simp [digraphWindows] at hw
    | cons b r =>
      rcases List.mem_cons.1 hw with rfl | hw'
      · exact ⟨List.mem_cons_self a _, List.mem_cons_of_mem a (List.mem_cons_self b r)⟩
      · have h := ih w hw'
        exact ⟨List.mem_cons_of_mem a h.1, List.mem_cons_of_mem a h.2⟩

lemma digraphWindows_length (l : List Char) :
    (digraphWindows l).length = l.length - 1 := by
  induction l with
  | nil => rfl
  | cons a rest ih =>
    cases rest with
    | nil => rfl
    | cons b r =>
      show ((a, b) :: digraphWindows (b :: r)).length = (a :: b :: r).length - 1
      rw [List.length_cons, ih]
      simp

/-! ### Facts about the counter items -/

lemma counterItems_keys (ws : List (Char × Char)) :
    (counterItems ws).map Prod.fst = ws.dedup := by
  have hcomp : (Prod.fst ∘ fun p : Char × Char => (p, ws.count p)) = id := rfl
  rw [counterItems, List.map_map, hcomp, List.map_id]

lemma counterItems_nodup (ws : List (Char × Char)) :
    ((counterItems ws).map Prod.fst).Nodup := by
  rw [counterItems_keys]
  exact List.nodup_dedup ws

lemma counterItems_mem {ws : List (Char × Char)} {it : (Char × Char) × ℕ}
    (h : it ∈ counterItems ws) : it.1 ∈ ws ∧ it.2 = ws.count it.1 := by
  rcases List.mem_map.1 h with ⟨p, hp, rfl⟩
  exact ⟨List.mem_dedup.1 hp, rfl⟩

lemma counterItems_find? (ws : List (Char × Char)) (q : Char × Char) :
    ∀ l : List (Char × Char),
      ((l.map fun p => (p, ws.count p)).find? fun it => decide (it.1 = q)) =
        if q ∈ l then some (q, ws.count q) else none := by
  intro l
  induction l with
  | nil => simp
  | cons p rest ih =>
    rcases eq_or_ne p q with rfl | hpq
    · rw [List.map_cons, List.find?_cons_of_pos _ (by simp)]
      simp
    · rw [List.map_cons, List.find?_cons_of_neg _ (by simp [hpq]), ih]
      simp [List.mem_cons, Ne.symm hpq]

/-! ### Pointwise characterization of the fill loop -/

lemma fill_foldl (excl : Option (List (Char × Char))) (thr : Option ℤ)
    (q : Char × Char) (hq1 : q.1 ∈ hexDigitsList) (hq2 : q.2 ∈ hexDigitsList) :
    ∀ (items : List ((Char × Char) × ℕ)) (m : ℕ → ℕ → ℕ),
      (items.map Prod.fst).Nodup →
      (∀ it ∈ items, it.1.1 ∈ hexDigitsList ∧ it.1.2 ∈ hexDigitsList) →
      List.foldl (fillStep excl thr) m items (hexIndex q.1) (hexIndex q.2) =
        match items.find? fun it => decide (it.1 = q) with
        | some it =>
            if skipDigraph excl thr it.1 it.2 = true then m (hexIndex q.1) (hexIndex q.2)
            else it.2
        | none => m (hexIndex q.1) (hexIndex q.2) := by
  intro items
  induction items with
  | nil => intro m _ _; rfl
  | cons it rest ih =>
    intro m hnd hhex
    rw [List.map_cons] at hnd
    have hnd' : (rest.map Prod.fst).Nodup := (List.nodup_cons.1 hnd).2
    have hhex' : ∀ x ∈ rest, x.1.1 ∈ hexDigitsList ∧ x.1.2 ∈ hexDigitsList :=
      fun x hx => hhex x (List.mem_cons_of_mem it hx)
    have hit := hhex it (List.mem_cons_self it rest)
    rw [List.foldl_cons, ih (fillStep excl thr m it) hnd' hhex']
    rcases eq_or_ne it.1 q with hq | hq
    · have hnotin : ∀ x ∈ rest, ¬((fun y : (Char × Char) × ℕ => decide (y.1 = q)) x = true) := by
        intro x hx
        simp only [decide_eq_true_eq]
        intro hxq
        have hmem : x.1 ∈ rest.map Prod.fst := List.mem_map_of_mem Prod.fst hx
        rw [hxq, ← hq] at hmem
        exact (List.nodup_cons.1 hnd).1 hmem
      rw [List.find?_eq_none.2 hnotin, List.find?_cons_of_pos _ (by simp [hq])]
      show fillStep excl thr m it (hexIndex q.1) (hexIndex q.2) =
        if skipDigraph excl thr it.1 it.2 = true then m (hexIndex q.1) (hexIndex q.2)
        else it.2
      rw [fillStep]
      by_cases hs : skipDigraph excl thr it.1 it.2 = true
      · rw [if_pos hs, if_pos hs]
      · rw [if_neg hs, if_neg hs]
        subst hq
        simp [matUpdate]
    · rw [List.find?_cons_of_neg _ (by simp [hq])]
      have hcell : fillStep excl thr m it (hexIndex q.1) (hexIndex q.2) =
          m (hexIndex q.1) (hexIndex q.2) := by
        rw [fillStep]
        by_cases hs : skipDigraph excl thr it.1 it.2 = true
        · rw [if_pos hs]
        · rw [if_neg hs]
          rw [matUpdate, if_neg]
          rintro ⟨h1, h2⟩
          exact hq (Prod.ext_iff.2
            ⟨hexIndex_inj hit.1 hq1 h1.symm, hexIndex_inj hit.2 hq2 h2.symm⟩)
      rw [hcell]

lemma fillMatrix_counter (ws : List (Char × Char))
    (hws : ∀ w ∈ ws, w.1 ∈ hexDigitsList ∧ w.2 ∈ hexDigitsList)
    (excl : Option (List (Char × Char))) (thr : Option ℤ)
    (c1 c2 : Char) (h1 : c1 ∈ hexDigitsList) (h2 : c2 ∈ hexDigitsList) :
    fillMatrix (counterItems ws) excl thr (hexIndex c1) (hexIndex c2) =
      if skipDigraph excl thr (c1, c2) (ws.count (c1, c2)) = true
         ∨ ws.count (c1, c2) = 0
      then 0 else ws.count (c1, c2) := by
  have hhex : ∀ it ∈ counterItems ws, it.1.1 ∈ hexDigitsList ∧ it.1.2 ∈ hexDigitsList := by
    intro it hit
    exact hws it.1 (counterItems_mem hit).1
  rw [fillMatrix,
    fill_foldl excl thr (c1, c2) h1 h2 (counterItems ws) _ (counterItems_nodup ws) hhex,
    counterItems, counterItems_find? ws (c1, c2) ws.dedup]
  by_cases hmem : (c1, c2) ∈ ws
  · rw [if_pos (List.mem_dedup.2 hmem)]
    have hc : ws.count (c1, c2) ≠ 0 := by
      intro h
      exact List.count_eq_zero.1 h hmem
    by_cases hs : skipDigraph excl thr (c1, c2) (ws.count (c1, c2)) = true
    · show (if skipDigraph excl thr (c1, c2) (ws.count (c1, c2)) = true
          then (fun _ _ => (0 : ℕ)) (hexIndex c1) (hexIndex c2)
          else ws.count (c1, c2)) = _
      rw [if_pos hs, if_pos (Or.inl hs)]
    · show (if skipDigraph excl thr (c1, c2) (ws.count (c1, c2)) = true
          then (fun _ _ => (0 : ℕ)) (hexIndex c1) (hexIndex c2)
          else ws.count (c1, c2)) = _
      rw [if_neg hs, if_neg (by rintro (h | h); exacts [hs h, hc h])]
  · rw [if_neg (fun h => hmem (List.mem_dedup.1 h))]
    show (0 : ℕ) = _
    rw [if_pos (Or.inr (List.count_eq_zero.2 hmem))]

lemma windows_hex (data : List (Fin 256)) :
    ∀ w ∈ digraphWindows (hexString data), w.1 ∈ hexDigitsList ∧ w.2 ∈ hexDigitsList := by
  intro w hw
  have h := digraphWindows_mem (hexString data) w hw
  exact ⟨hexString_mem data _ h.1, hexString_mem data _ h.2⟩

lemma rawMatrix_eq (data : List (Fin 256)) (excl : Option (List (Char × Char)))
    (thr : Option ℤ) (i j : ℕ) (hi : i < 16) (hj : j < 16) :
    rawMatrix data excl thr i j =
      if skipDigraph excl thr (hexChar i, hexChar j)
           ((digraphWindows (hexString data)).count (hexChar i, hexChar j)) = true
         ∨ (digraphWindows (hexString data)).count (hexChar i, hexChar j) = 0
      then 0
      else (digraphWindows (hexString data)).count (hexChar i, hexChar j) := by
  have h := fillMatrix_counter (digraphWindows (hexString data)) (windows_hex data)
    excl thr (hexChar i) (hexChar j) (hexChar_mem i hi) (hexChar_mem j hj)
  rw [hexIndex_hexChar i hi, hexIndex_hexChar j hj] at h
  exact h

lemma skip_iff (excl : Option (List (Char × Char))) (thr : Option ℤ)
    (p : Char × Char) (c : ℕ) :
    skipDigraph excl thr p c = true ↔
      (∃ l, excl = some l ∧ p ∈ l) ∨ ∃ t, thr = some t ∧ (c : ℤ) < t := by
  rcases excl with _ | l <;> rcases thr with _ | t <;>
    simp [skipDigraph, List.isEmpty_iff]
  · omega
  · intro hp
    exact List.ne_nil_of_mem hp
  · constructor
    · rintro (⟨_, hp⟩ | ⟨_, hct⟩)
      · exact Or.inl hp
      · exact Or.inr hct
    · rintro (hp | hct)
      · exact Or.inl ⟨List.ne_nil_of_mem hp, hp⟩
      · refine Or.inr ⟨?_, hct⟩
        omega

/-! ### Sum of the unfiltered grid -/

lemma indicator_one (w : Char × Char) (h1 : w.1 ∈ hexDigitsList) (h2 : w.2 ∈ hexDigitsList) :
    (∑ p ∈ Finset.range 16 ×ˢ Finset.range 16,
      if (w.1, w.2) = (hexChar p.1, hexChar p.2) then 1 else 0) = 1 := by
  rw [Finset.sum_eq_single (hexIndex w.1, hexIndex w.2)]
  · rw [if_pos]
    rw [hexChar_hexIndex w.1 h1, hexChar_hexIndex w.2 h2]
  · rintro ⟨a, b⟩ hp hne
    rw [if_neg]
    intro he
    rcases Finset.mem_product.1 hp with ⟨ha, hb⟩
    rw [Finset.mem_range] at ha hb
    apply hne
    have he1 : w.1 = hexChar a := congrArg Prod.fst he
    have he2 : w.2 = hexChar b := congrArg Prod.snd he
    have : hexIndex w.1 = a := by rw [he1, hexIndex_hexChar a ha]
    have : hexIndex w.2 = b := by rw [he2, hexIndex_hexChar b hb]
    simp_all
  · intro habs
    exfalso
    apply habs
    rw [Finset.mem_product, Finset.mem_range, Finset.mem_range]
    exact ⟨hexIndex_lt w.1 h1, hexIndex_lt w.2 h2⟩

lemma count_grid_sum (ws : List (Char × Char))
    (hx : ∀ w ∈ ws, w.1 ∈ hexDigitsList ∧ w.2 ∈ hexDigitsList) :
    (∑ p ∈ Finset.range 16 ×ˢ Finset.range 16,
      ws.count (hexChar p.1, hexChar p.2)) = ws.length := by
  induction ws with
  | nil => simp
  | cons w rest ih =>
    have hw := hx w (List.mem_cons_self w rest)
    have hrest : ∀ w' ∈ rest, w'.1 ∈ hexDigitsList ∧ w'.2 ∈ hexDigitsList :=
      fun w' h => hx w' (List.mem_cons_of_mem w h)
    have hcc : ∀ p : ℕ × ℕ,
        (w :: rest).count (hexChar p.1, hexChar p.2) =
          rest.count (hexChar p.1, hexChar p.2) +
            if (w.1, w.2) = (hexChar p.1, hexChar p.2) then 1 else 0 := by
      intro p
      rw [List.count_cons]
      congr 1
      simp only [beq_iff_eq]
    rw [Finset.sum_congr rfl fun p _ => hcc p, Finset.sum_add_distrib,
      ih hrest, indicator_one w hw.1 hw.2, List.length_cons]

/-! ### Nonpositive thresholds never filter -/

lemma skip_nonpos (excl : Option (List (Char × Char))) (t : ℤ) (ht : t ≤ 0)
    (p : Char × Char) (c : ℕ) :
    skipDigraph excl (some t) p c = skipDigraph excl none p c := by
  have h2 : (decide (t ≠ 0) && decide ((c : ℤ) < t)) = false := by
    rcases eq_or_ne t 0 with rfl | hne
    · simp
    · have : ¬((c : ℤ) < t) := by omega
      simp [this]
  cases excl with
  | none =>
      show (false || (decide (t ≠ 0) && decide ((c : ℤ) < t))) = (false || false)
      rw [h2]
  | some l =>
      show ((!l.isEmpty && decide (p ∈ l)) || (decide (t ≠ 0) && decide ((c : ℤ) < t)))
        = ((!l.isEmpty && decide (p ∈ l)) || false)
      rw [h2]

lemma fillMatrix_nonpos (items : List ((Char × Char) × ℕ))
    (excl : Option (List (Char × Char))) (t : ℤ) (ht : t ≤ 0) :
    fillMatrix items excl (some t) = fillMatrix items excl none := by
  rw [fillMatrix, fillMatrix]
  congr 1
  funext m it
  rw [fillStep, fillStep, skip_nonpos excl t ht it.1 it.2]

lemma applyLogScale_pos (ls : Bool) (m : ℕ → ℕ → ℕ)
    (h : ls = true ∧ 0 < matMax m) (i j : ℕ) :
    applyLogScale ls m i j = if 0 < m i j then Real.log (1 + (m i j : ℝ)) else 0 := by
  rw [applyLogScale, if_pos h]

lemma applyLogScale_neg (ls : Bool) (m : ℕ → ℕ → ℕ)
    (h : ¬(ls = true ∧ 0 < matMax m)) (i j : ℕ) :
    applyLogScale ls m i j = (m i j : ℝ) := by
  rw [applyLogScale, if_neg h]

/-! ### The claims -/

/-- C1: on the empty byte sequence the analyzer does not complete normally:
the hex array is empty, so the `sliding_window_view` call fails (window shape
2 larger than the length-0 array) and `analyze_digraphs` errors for every
configuration instead of returning an all-zero grid and an empty mapping. -/
theorem analyze_digraphs_empty_error (ls : Bool) (excl : Option (List (Char × Char)))
    (v : Option ℚ) (t : Option ℤ) :
    analyze_digraphs [] ls excl v t =
      Except.error "window shape cannot be larger than input array shape" := rfl

/-- C2: for every non-empty byte sequence, with no exclusion set and no
minimum threshold, the 256 cells of the pre-scale grid sum to
2 × length − 1, the number of overlapping length-2 windows of the hex
string. -/
theorem rawMatrix_sum_windows (data : List (Fin 256)) (h : data ≠ []) :
    (∑ i ∈ Finset.range 16, ∑ j ∈ Finset.range 16, rawMatrix data none none i j)
      = 2 * data.length - 1 := by
  have hcell : ∀ i ∈ Finset.range 16, ∀ j ∈ Finset.range 16,
      rawMatrix data none none i j =
        (digraphWindows (hexString data)).count (hexChar i, hexChar j) := by
    intro i hi j hj
    rw [Finset.mem_range] at hi hj
    rw [rawMatrix_eq data none none i j hi hj]
    by_cases hc : (digraphWindows (hexString data)).count (hexChar i, hexChar j) = 0
    · rw [if_pos (Or.inr hc), hc]
    · have hneg : ¬(skipDigraph none none (hexChar i, hexChar j)
          ((digraphWindows (hexString data)).count (hexChar i, hexChar j)) = true ∨
          (digraphWindows (hexString data)).count (hexChar i, hexChar j) = 0) := by
        rintro (hs | h0)
        · exact Bool.false_ne_true hs
        · exact hc h0
      rw [if_neg hneg]
  rw [Finset.sum_congr rfl fun i hi => Finset.sum_congr rfl fun j hj => hcell i hi j hj,
    ← Finset.sum_product', count_grid_sum _ (windows_hex data),
    digraphWindows_length, hexString_length]

/-- Witness for C2 at the one-byte sequence `b'\xAB'`. -/
theorem rawMatrix_sum_windows_witness :
    ([(171 : Fin 256)] : List (Fin 256)) ≠ [] ∧
    (∑ i ∈ Finset.range 16, ∑ j ∈ Finset.range 16,
        rawMatrix [(171 : Fin 256)] none none i j)
      = 2 * ([(171 : Fin 256)] : List (Fin 256)).length - 1 :=
  ⟨by decide, rawMatrix_sum_windows [(171 : Fin 256)] (by decide)⟩

/-- C3: every pre-scale grid cell equals the count mapping's value at the
cell's hex-digit pair, or 0 when that digraph is excluded, has its count
below the threshold, or never occurs (count 0). -/
theorem rawMatrix_cell_spec (data : List (Fin 256))
    (excl : Option (List (Char × Char))) (thr : Option ℤ) (i j : ℕ)
    (hi : i < 16) (hj : j < 16) :
    (((∃ l, excl = some l ∧ (hexChar i, hexChar j) ∈ l) ∨
      (∃ t, thr = some t ∧
        (((digraphWindows (hexString data)).count (hexChar i, hexChar j) : ℤ) < t)) ∨
      (digraphWindows (hexString data)).count (hexChar i, hexChar j) = 0) →
        rawMatrix data excl thr i j = 0) ∧
    ((∀ l, excl = some l → (hexChar i, hexChar j) ∉ l) →
     (∀ t, thr = some t →
        ¬(((digraphWindows (hexString data)).count (hexChar i, hexChar j) : ℤ) < t)) →
     rawMatrix data excl thr i j =
       (digraphWindows (hexString data)).count (hexChar i, hexChar j)) := by
  constructor
  · intro hcond
    rw [rawMatrix_eq data excl thr i j hi hj, if_pos]
    rcases hcond with h | h | h
    · exact Or.inl ((skip_iff _ _ _ _).2 (Or.inl h))
    · exact Or.inl ((skip_iff _ _ _ _).2 (Or.inr h))
    · exact Or.inr h
  · intro hexcl hthr
    rw [rawMatrix_eq data excl thr i j hi hj]
    by_cases hc : (digraphWindows (hexString data)).count (hexChar i, hexChar j) = 0
    · rw [if_pos (Or.inr hc), hc]
    · have hneg : ¬(skipDigraph excl thr (hexChar i, hexChar j)
          ((digraphWindows (hexString data)).count (hexChar i, hexChar j)) = true ∨
          (digraphWindows (hexString data)).count (hexChar i, hexChar j) = 0) := by
        rintro (hs | h0)
        · rcases (skip_iff _ _ _ _).1 hs with ⟨l, hl, hmem⟩ | ⟨t, ht, hlt⟩
          · exact hexcl l hl hmem
          · exact hthr t ht hlt
        · exact hc h0
      rw [if_neg hneg]

/-- Witness for C3 at `b'\xAB'`, cell (10, 11), no filtering. -/
theorem rawMatrix_cell_spec_witness :
    10 < 16 ∧ 11 < 16 ∧
    rawMatrix [(171 : Fin 256)] none none 10 11 =
      (digraphWindows (hexString [(171 : Fin 256)])).count (hexChar 10, hexChar 11) :=
  ⟨by decide, by decide,
    (rawMatrix_cell_spec [(171 : Fin 256)] none none 10 11 (by decide) (by decide)).2
      (fun l hl => by cases hl) (fun t ht => by cases ht)⟩

/-- C4: for every nonzero pre-scale count `c`, the annotation computed from
the scaled cell value `v = ln(1+c)` recovers `c` exactly, both as the code
computes it (truncation of `exp(v) - 1`) and as `round(exp(ln(1+c)) - 1)`. -/
theorem annotation_roundtrip (c : ℕ) (h : 0 < c) :
    annotationValue true (Real.log (1 + (c : ℝ))) = (c : ℤ) ∧
    round (Real.exp (Real.log (1 + (c : ℝ))) - 1) = (c : ℤ) := by
  have h1 : (0 : ℝ) < 1 + (c : ℝ) := by positivity
  have h2 : Real.exp (Real.log (1 + (c : ℝ))) = 1 + (c : ℝ) := Real.exp_log h1
  have h3 : 1 + (c : ℝ) - 1 = (c : ℝ) := by ring
  constructor
  · rw [annotationValue, if_pos rfl, h2, h3, Int.floor_natCast]
  · rw [h2, h3, round_natCast]

/-- Witness for C4 at `c = 1`. -/
theorem annotation_roundtrip_witness :
    0 < 1 ∧ (annotationValue true (Real.log (1 + ((1 : ℕ) : ℝ))) = ((1 : ℕ) : ℤ) ∧
      round (Real.exp (Real.log (1 + ((1 : ℕ) : ℝ))) - 1) = ((1 : ℕ) : ℤ)) :=
  ⟨Nat.one_pos, annotation_roundtrip 1 Nat.one_pos⟩

/-- C5: on a non-empty input the analyzer succeeds, and its returned grid is
the pre-scale grid with `ln(1+v)` applied to every strictly-positive cell and
zero cells kept at zero when log scaling is requested and the pre-scale
maximum is positive, and is the unchanged pre-scale grid otherwise. -/
theorem analyze_log_scaling (data : List (Fin 256)) (h : data ≠ []) (ls : Bool)
    (excl : Option (List (Char × Char))) (v : Option ℚ) (thr : Option ℤ) :
    ∃ g items, analyze_digraphs data ls excl v thr = Except.ok (g, items) ∧
      ((ls = true ∧ 0 < matMax (rawMatrix data excl thr)) →
        ∀ i j, (0 < rawMatrix data excl thr i j →
                  g i j = Real.log (1 + (rawMatrix data excl thr i j : ℝ))) ∧
               (rawMatrix data excl thr i j = 0 → g i j = 0)) ∧
      ((ls = false ∨ matMax (rawMatrix data excl thr) = 0) →
        ∀ i j, g i j = (rawMatrix data excl thr i j : ℝ)) := by
  have hlen : ¬((hexString data).length < 2) := by
    rw [hexString_length]
    have hne : data.length ≠ 0 := fun h0 => h (List.length_eq_zero.1 h0)
    omega
  have hsw : slidingWindowView (hexString data) =
      Except.ok (digraphWindows (hexString data)) := by
    rw [slidingWindowView, if_neg hlen]
  refine ⟨applyLogScale ls (rawMatrix data excl thr),
    counterItems (digraphWindows (hexString data)), ?_, ?_, ?_⟩
  · rw [analyze_digraphs.eq_def, hsw]
    rfl
  · rintro ⟨hls, hmax⟩ i j
    constructor
    · intro hpos
      rw [applyLogScale_pos ls _ ⟨hls, hmax⟩, if_pos hpos]
    · intro h0
      rw [applyLogScale_pos ls _ ⟨hls, hmax⟩, if_neg (by rw [h0]; exact lt_irrefl 0)]
  · intro hor i j
    apply applyLogScale_neg
    rintro ⟨hls, hmax⟩
    rcases hor with hf | hm0
    · rw [hf] at hls
      cases hls
    · rw [hm0] at hmax
      exact lt_irrefl 0 hmax

/-- Witness for C5 at `b'\xAB'` with the default configuration. -/
theorem analyze_log_scaling_witness :
    ([(171 : Fin 256)] : List (Fin 256)) ≠ [] ∧
    ∃ g items, analyze_digraphs [(171 : Fin 256)] true none none none
        = Except.ok (g, items) ∧
      ((true = true ∧ 0 < matMax (rawMatrix [(171 : Fin 256)] none none)) →
        ∀ i j, (0 < rawMatrix [(171 : Fin 256)] none none i j →
                  g i j = Real.log (1 + (rawMatrix [(171 : Fin 256)] none none i j : ℝ))) ∧
               (rawMatrix [(171 : Fin 256)] none none i j = 0 → g i j = 0)) ∧
      ((true = false ∨ matMax (rawMatrix [(171 : Fin 256)] none none) = 0) →
        ∀ i j, g i j = (rawMatrix [(171 : Fin 256)] none none i j : ℝ)) :=
  ⟨by decide, analyze_log_scaling [(171 : Fin 256)] (by decide) true none none none⟩

/-- C6: the byte `0xAB` is encoded high nibble first as the hex string "AB",
producing exactly the one digraph `('A', 'B')` with count 1, and the
pre-scale grid holds 1 at cell (10, 11) and 0 everywhere else. -/
theorem hexpair_single_byte :
    hexString [(171 : Fin 256)] = ['A', 'B'] ∧
    counterItems (digraphWindows (hexString [(171 : Fin 256)])) = [(('A', 'B'), 1)] ∧
    rawMatrix [(171 : Fin 256)] none none 10 11 = 1 ∧
    ∀ i < 16, ∀ j < 16, ¬(i = 10 ∧ j = 11) →
      rawMatrix [(171 : Fin 256)] none none i j = 0 := by
  decide

/-- C7: on input bytes `0x00 0x00` with `('0','0')` excluded, the counter
still records 3 occurrences of `('0','0')` (and the analyzer returns that
mapping), while grid cell (0, 0) stays 0. -/
theorem exclude_keeps_counts :
    (digraphWindows (hexString [(0 : Fin 256), 0])).count ('0', '0') = 3 ∧
    rawMatrix [(0 : Fin 256), 0] (some [('0', '0')]) none 0 0 = 0 ∧
    ∃ g, analyze_digraphs [(0 : Fin 256), 0] true (some [('0', '0')]) none none =
      Except.ok (g, [(('0', '0'), 3)]) := by
  refine ⟨by decide, by decide,
    applyLogScale true (rawMatrix [(0 : Fin 256), 0] (some [('0', '0')]) none), ?_⟩
  rfl

/-- The counter items of the threshold example of the claim:
counts `{('A','B'): 4, ('C','D'): 10}`. -/
def c8Items : List ((Char × Char) × ℕ) := [(('A', 'B'), 4), (('C', 'D'), 10)]

/-- C8: with `min_threshold = 5` and counts `{('A','B'): 4, ('C','D'): 10}`,
the fill loop leaves the `('A','B')` cell (10, 11) at 0 and sets the
`('C','D')` cell (12, 13) to 10 — `ln(11)` after log scaling — while both
pairs stay in the count mapping. -/
theorem threshold_filter_scenario :
    fillMatrix c8Items none (some 5) 10 11 = 0 ∧
    fillMatrix c8Items none (some 5) 12 13 = 10 ∧
    applyLogScale true (fillMatrix c8Items none (some 5)) 12 13 = Real.log 11 ∧
    (('A', 'B'), 4) ∈ c8Items ∧ (('C', 'D'), 10) ∈ c8Items := by
  refine ⟨by decide, by decide, ?_, by decide, by decide⟩
  have hcell : fillMatrix c8Items none (some 5) 12 13 = 10 := by decide
  have hmax : 0 < matMax (fillMatrix c8Items none (some 5)) := by decide
  rw [applyLogScale_pos true _ ⟨rfl, hmax⟩, if_pos (by decide), hcell]
  norm_num

/-- C9: a threshold `t ≤ 0` (zero is falsy in Python, and counts are never
below a negative bound) filters nothing: the analyzer returns the same grid
and mapping as with no threshold supplied, for every input and every other
configuration. -/
theorem nonpos_threshold_no_filter (data : List (Fin 256)) (ls : Bool)
    (excl : Option (List (Char × Char))) (v : Option ℚ) (t : ℤ) (ht : t ≤ 0) :
    analyze_digraphs data ls excl v (some t) = analyze_digraphs data ls excl v none := by
  rw [analyze_digraphs.eq_def, analyze_digraphs.eq_def]
  cases hsw : slidingWindowView (hexString data) with
  | error e => rfl
  | ok ws =>
      show Except.ok (applyLogScale ls (fillMatrix (counterItems ws) excl (some t)),
          counterItems ws)
        = Except.ok (applyLogScale ls (fillMatrix (counterItems ws) excl none),
          counterItems ws)
      rw [fillMatrix_nonpos (counterItems ws) excl t ht]

/-- Witness for C9 at threshold 0 on `b'\xAB'`. -/
theorem nonpos_threshold_no_filter_witness :
    (0 : ℤ) ≤ 0 ∧
    analyze_digraphs [(171 : Fin 256)] true none none (some 0) =
      analyze_digraphs [(171 : Fin 256)] true none none none :=
  ⟨le_refl 0, nonpos_threshold_no_filter [(171 : Fin 256)] true none none 0 (le_refl 0)⟩

/-- C10: `vmax` is used only by the rendering call, so two runs of the
analyzer differing only in `vmax` return the same grid and count mapping. -/
theorem vmax_independent (data : List (Fin 256)) (ls : Bool)
    (excl : Option (List (Char × Char))) (thr : Option ℤ) (v1 v2 : Option ℚ) :
    analyze_digraphs data ls excl v1 thr = analyze_digraphs data ls excl v2 thr := rfl
